import Mathlib

/-!
# go-health: readiness / liveness handlers

A shallow embedding of `server.go` (package `health`).

* Go strings are Lean `String`s (valid Unicode; Go strings holding invalid
  UTF-8 are outside the model).
* A Go `map[string]string` is a key-sorted association list without duplicate
  keys (`StrMap`): one canonical representative per finite map, listed in the
  order in which `encoding/json` emits the keys.
* `http.ResponseWriter` is a record of header, status line and body.
* A `Checker` is a function of the request context.  The goroutines started by
  `readiness` and the buffered channel they publish on are modelled by the list
  of launched results and an arrival order chosen by a schedule.
* `encoding/json` and `net/http` are library code; `jsonMarshal` and the
  `ResponseWriter` operations follow their documented behaviour
  (Go 1.22 string escaping, HTML escaping on).
-/

namespace Health

/-! ## Strings and maps -/

/-- Lexicographic comparison of two code point sequences.  UTF-8 preserves code
point order, so this is the byte-wise order Go uses to sort map keys. -/
def runesLt : List Char → List Char → Bool
  | [], [] => false
  | [], _ :: _ => true
  | _ :: _, [] => false
  | a :: as, b :: bs =>
    if a.toNat < b.toNat then true
    else if a.toNat = b.toNat then runesLt as bs
    else false

/-- Strict order on map keys. -/
def keyLt (a b : String) : Bool := runesLt a.data b.data

/-- A Go `map[string]string`, kept sorted by key. -/
abbrev StrMap := List (String × String)

/-- The assignment `m[k] = v`. -/
def mapSet (k v : String) : StrMap → StrMap
  | [] => [(k, v)]
  | (k', v') :: t =>
    if keyLt k k' then (k, v) :: (k', v') :: t
    else if k = k' then (k, v) :: t
    else (k', v') :: mapSet k v t

/-- The lookup `m[k]` (with presence). -/
def mapGet (k : String) : StrMap → Option String
  | [] => none
  | (k', v') :: t => if k = k' then some v' else mapGet k t

/-- The keys of a map. -/
def mapKeys (m : StrMap) : List String := m.map Prod.fst

/-! ## Data model (`server.go` lines 15-52) -/

/-- The `context.Context` handed to every checker of one request. -/
structure Context where
  id : Nat
deriving DecidableEq

/-- The part of `*http.Request` the handlers read. -/
structure Request where
  ctx : Context
deriving DecidableEq

structure CheckStatus where
  Name : String
  Healthy : Bool
  Info : String
  Details : String
  Error : String
deriving DecidableEq

/-- The Go type `func(context.Context) CheckStatus`. -/
abbrev Checker := Context → CheckStatus

structure CheckProvider where
  HealthCheck : Checker

structure MultiCheckProvider where
  HealthChecks : List Checker

structure healthCheckResponse where
  Status : String
  Info : StrMap
  Error : String
  Details : StrMap
deriving DecidableEq

/-- The `*http.Server` field: only its address is set by this package. -/
structure HttpServer where
  Addr : String
deriving DecidableEq

structure checkServer where
  server : HttpServer
  /-- The counter of the `sync.WaitGroup`. -/
  wg : Nat
  healthCheckers : List Checker

/-! ## `http.ResponseWriter` -/

structure ResponseWriter where
  header : StrMap
  /-- The status code once the header has been written. -/
  status : Option Nat
  body : String
deriving DecidableEq

/-- The writer `net/http` hands to a handler. -/
def ResponseWriter.fresh : ResponseWriter := ⟨[], none, ""⟩

/-- The call `w.Header().Set(k, v)`. -/
def ResponseWriter.SetHeader (w : ResponseWriter) (k v : String) : ResponseWriter :=
  { w with header := mapSet k v w.header }

/-- The call `w.WriteHeader(code)`: only the first call takes effect. -/
def ResponseWriter.WriteHeader (w : ResponseWriter) (code : Nat) : ResponseWriter :=
  match w.status with
  | some _ => w
  | none => { w with status := some code }

/-- The call `w.Write(b)`: writes the header with 200 when none was written. -/
def ResponseWriter.Write (w : ResponseWriter) (b : String) : ResponseWriter :=
  { (w.WriteHeader 200) with body := w.body ++ b }

/-! ## `encoding/json` on `healthCheckResponse` -/

/-- The table `hex = "0123456789abcdef"`. -/
def hexDigit (n : Nat) : Char :=
  if n < 10 then Char.ofNat (48 + n) else Char.ofNat (87 + n)

/-- One rune of `appendString` with `escapeHTML = true`. -/
def escapeRune (c : Char) : List Char :=
  let b := c.toNat
  let bs := Char.ofNat 92
  if b = 92 ∨ b = 34 then [bs, c]
  else if b = 8 then [bs, Char.ofNat 98]
  else if b = 12 then [bs, Char.ofNat 102]
  else if b = 10 then [bs, Char.ofNat 110]
  else if b = 13 then [bs, Char.ofNat 114]
  else if b = 9 then [bs, Char.ofNat 116]
  else if b < 32 ∨ b = 60 ∨ b = 62 ∨ b = 38 then
    [bs, Char.ofNat 117, Char.ofNat 48, Char.ofNat 48, hexDigit (b / 16), hexDigit (b % 16)]
  else if b = 8232 ∨ b = 8233 then
    [bs, Char.ofNat 117, Char.ofNat 50, Char.ofNat 48, Char.ofNat 50, hexDigit (b % 16)]
  else [c]

/-- A JSON string literal. -/
def encodeString (s : String) : String :=
  "\"" ++ String.mk (s.data.flatMap escapeRune) ++ "\""

/-- The entries of a map after the first one, each preceded by a comma. -/
def encodeEntries : Bool → StrMap → String
  | _, [] => ""
  | first, (k, v) :: t =>
    (if first then "" else ",") ++ encodeString k ++ ":" ++ encodeString v
      ++ encodeEntries false t

/-- The `mapEncoder`: keys in sorted order. -/
def encodeMap (m : StrMap) : String :=
  "\x7b" ++ encodeEntries true m ++ "\x7d"

/-- The two kinds of field value of `healthCheckResponse`. -/
inductive JVal where
  | str (s : String)
  | obj (m : StrMap)
deriving DecidableEq

/-- One struct field with its `json` tag. -/
structure Field where
  name : String
  omitEmpty : Bool
  val : JVal
deriving DecidableEq

/-- The `isEmptyValue` test behind `omitempty`: length zero. -/
def isEmptyValue : JVal → Bool
  | .str s => s.data.length == 0
  | .obj m => m.length == 0

def encodeValue : JVal → String
  | .str s => encodeString s
  | .obj m => encodeMap m

/-- The loop of the `structEncoder`: the buffer and the pending separator. -/
def encodeFields : List Field → String × String → String × String
  | [], acc => acc
  | f :: fs, (buf, next) =>
    if f.omitEmpty && isEmptyValue f.val then encodeFields fs (buf, next)
    else encodeFields fs (buf ++ next ++ "\"" ++ f.name ++ "\":" ++ encodeValue f.val, ",")

def encodeStruct (fields : List Field) : String :=
  let (buf, next) := encodeFields fields ("", "\x7b")
  if next = "\x7b" then buf ++ "\x7b\x7d" else buf ++ "\x7d"

/-- The fields of `healthCheckResponse` in declaration order (lines 33-38). -/
def healthCheckResponse.fields (r : healthCheckResponse) : List Field :=
  [ ⟨"status", false, .str r.Status⟩,
    ⟨"info", true, .obj r.Info⟩,
    ⟨"error", true, .str r.Error⟩,
    ⟨"details", true, .obj r.Details⟩ ]

/-- The call `json.Marshal(result)`. -/
def jsonMarshal (r : healthCheckResponse) : Except String String :=
  .ok (encodeStruct r.fields)

/-! ## Registry (`server.go` lines 54-97) -/

def NewHealthCheckServer (port : Nat) : checkServer :=
  { server := ⟨":" ++ toString port⟩, wg := 0, healthCheckers := [] }

def AddHealthChecker (s : checkServer) (checker : List Checker) : checkServer :=
  { s with healthCheckers := s.healthCheckers ++ checker }

def Check (s : checkServer) (checkProvider : CheckProvider) : checkServer :=
  AddHealthChecker s [checkProvider.HealthCheck]

def CheckAll (s : checkServer) (checkProvider : MultiCheckProvider) : checkServer :=
  AddHealthChecker s checkProvider.HealthChecks

/-! ## Handlers (`server.go` lines 99-149) -/

/-- What one handler call did: the writer it leaves, the channel it made, the
goroutines it started and the receives it performed. -/
structure Outcome where
  w : ResponseWriter
  /-- Capacity of the result channel (0 when none is made). -/
  cap : Nat
  /-- Results of the checker invocations started, in launch order. -/
  launched : List CheckStatus
  /-- Number of iterations the collect loop was entered for. -/
  awaited : Nat
  /-- Results received from the channel, in arrival order. -/
  received : List CheckStatus
  /-- The verdict when the handler stopped (`none`: it builds none). -/
  result : Option healthCheckResponse
  /-- The handler is parked forever in a receive: nothing is left to arrive. -/
  blocked : Bool
deriving DecidableEq

def liveness (_s : checkServer) (w : ResponseWriter) (_req : Request) : Outcome :=
  let w := w.WriteHeader 200
  let w := w.Write "live"
  { w := w, cap := 0, launched := [], awaited := 0, received := [],
    result := none, blocked := false }

/-- The verdict before the collect loop (lines 115-120). -/
def initial : healthCheckResponse :=
  { Status := "up", Info := [], Error := "", Details := [] }

/-- The body of the collect loop for one received value (lines 124-130). -/
def absorb (result : healthCheckResponse) (response : CheckStatus) : healthCheckResponse :=
  if !response.Healthy then
    { { result with Error := response.Error } with Status := "down" }
  else
    { { result with Info := mapSet response.Name response.Info result.Info } with
      Details := mapSet response.Name response.Details result.Details }

/-- The reduction of a received sequence, in arrival order. -/
def reduce (rs : List CheckStatus) : healthCheckResponse :=
  rs.foldl absorb initial

/-- Lines 133-148: render the verdict. -/
def respond (w : ResponseWriter) (result : healthCheckResponse) : ResponseWriter :=
  let w := w.SetHeader "Content-Type" "application/json"
  match jsonMarshal result with
  | .error err =>
    let w := w.WriteHeader 503
    w.Write ("unhealthy: " ++ err)
  | .ok res =>
    let w := if result.Status = "up" then w.WriteHeader 200 else w.WriteHeader 503
    w.Write res

/-- Take the goroutine at position `i` out of a non-empty list of running ones. -/
def pick : Nat → CheckStatus → List CheckStatus → CheckStatus × List CheckStatus
  | 0, x, xs => (x, xs)
  | _ + 1, x, [] => (x, [])
  | i + 1, x, y :: ys =>
    let p := pick i y ys
    (p.1, x :: p.2)

/-- The order in which the running goroutines publish their results: the
schedule names, send after send, which of the still running ones is next
(launch order once the schedule is used up). -/
def arrive : List Nat → List CheckStatus → List CheckStatus
  | _, [] => []
  | [], x :: xs => x :: xs
  | i :: is, x :: xs =>
    let p := pick i x xs
    p.1 :: arrive is p.2

/-- State of the collect loop (lines 122-131). -/
structure Loop where
  result : healthCheckResponse
  received : List CheckStatus
  blocked : Bool
deriving DecidableEq

/-- The collect loop: `n` iterations, each receiving the next arrival; a
receive with nothing left to arrive never returns. -/
def collect : Nat → List CheckStatus → Loop → Loop
  | 0, _, l => l
  | _ + 1, [], l => { l with blocked := true }
  | n + 1, x :: xs, l =>
    collect n xs { l with result := absorb l.result x, received := l.received ++ [x] }

/-- The handler `readiness`, where `s1`, `s2` and `s3` are the server as read at
line 105 (`make`), line 108 (launch loop) and line 122 (collect loop). -/
def readinessAt (s1 s2 s3 : checkServer) (w : ResponseWriter) (req : Request)
    (sched : List Nat) : Outcome :=
  let cap := s1.healthCheckers.length
  let launched := s2.healthCheckers.map fun f => f req.ctx
  let l := collect s3.healthCheckers.length (arrive sched launched) ⟨initial, [], false⟩
  { w := if l.blocked then w else respond w l.result,
    cap := cap, launched := launched, awaited := s3.healthCheckers.length,
    received := l.received, result := some l.result, blocked := l.blocked }

/-- The handler `readiness` with the registry unchanged while it runs. -/
def readiness (s : checkServer) (w : ResponseWriter) (req : Request)
    (sched : List Nat) : Outcome :=
  readinessAt s s s w req sched

/-! ## Registrations interleaved with one readiness request -/

/-- What happens next: an `AddHealthChecker` call by another goroutine, or the
request reaching its next read of `s.healthCheckers`. -/
inductive Event where
  | add (cs : List Checker)
  | read

/-- The server states seen by the successive reads of the request. -/
def observe : checkServer → List Event → List checkServer
  | _, [] => []
  | s, .add cs :: es => observe (AddHealthChecker s cs) es
  | s, .read :: es => s :: observe s es

/-- One readiness request under an interleaving; `none` while the request has
not yet made its three reads. -/
def readinessUnder (s : checkServer) (es : List Event) (w : ResponseWriter)
    (req : Request) (sched : List Nat) : Option Outcome :=
  match observe s es with
  | s1 :: s2 :: s3 :: _ => some (readinessAt s1 s2 s3 w req sched)
  | _ => none

/-! ## Map invariant and the verdict shape of the spec -/

/-- Keys strictly increasing. -/
def KeysSorted (m : StrMap) : Prop := (mapKeys m).Pairwise fun a b => keyLt a b = true

/-- One member of a JSON object: the quoted name, a colon, the value. -/
def member (name value : String) : String := "\"" ++ name ++ "\":" ++ value

/-- Following the words of the spec (JSON verdict shape, fields omitted when empty):
the members in the order status, info, error, details; status always, info and
details when their map is non-empty, error when the string is non-empty. -/
def verdictMembers (v : healthCheckResponse) : List String :=
  [member "status" (encodeString v.Status)]
    ++ (if v.Info = [] then [] else [member "info" (encodeMap v.Info)])
    ++ (if v.Error = "" then [] else [member "error" (encodeString v.Error)])
    ++ (if v.Details = [] then [] else [member "details" (encodeMap v.Details)])

/-- Following the words of the spec: the verdict as one JSON object. -/
def verdictJson (v : healthCheckResponse) : String :=
  "\x7b" ++ ",".intercalate (verdictMembers v) ++ "\x7d"

/-! ## Key order -/

theorem runesLt_irrefl (a : List Char) : runesLt a a = false := by
  induction a with
  | nil => rfl
  | cons x xs ih => simp [runesLt, ih]

theorem runesLt_trans : ∀ (a b c : List Char), runesLt a b = true → runesLt b c = true → runesLt a c = true
  | [], [], _, h, _ => by simp [runesLt] at h
  | [], _ :: _, [], _, h => by simp [runesLt] at h
  | [], _ :: _, _ :: _, _, _ => by simp [runesLt]
  | _ :: _, [], _, h, _ => by simp [runesLt] at h
  | _ :: _, _ :: _, [], _, h => by simp [runesLt] at h
  | x :: xs, y :: ys, z :: zs, h1, h2 => by
    simp only [runesLt] at h1 h2 ⊢
    split_ifs at h1 h2 ⊢ <;> first | rfl | omega | exact runesLt_trans xs ys zs h1 h2

theorem runesLt_total : ∀ (a b : List Char), runesLt a b = false → runesLt b a = false → a = b
  | [], [], _, _ => rfl
  | [], _ :: _, h, _ => by simp [runesLt] at h
  | _ :: _, [], _, h => by simp [runesLt] at h
  | x :: xs, y :: ys, h1, h2 => by
    simp only [runesLt] at h1 h2
    split_ifs at h1 h2 <;> first | omega | skip
    have hx : x = y := by
      apply Char.ext; apply UInt32.ext; 
      simpa [Char.toNat] using (by assumption : x.toNat = y.toNat)
    rw [hx, runesLt_total xs ys h1 h2]

/-! ## Maps -/

theorem keyLt_irrefl (a : String) : keyLt a a = false := runesLt_irrefl a.data

theorem keyLt_trans {a b c : String} (h1 : keyLt a b = true) (h2 : keyLt b c = true) :
    keyLt a c = true := runesLt_trans _ _ _ h1 h2

theorem keyLt_total {a b : String} (h1 : keyLt a b = false) (h2 : keyLt b a = false) :
    a = b := by
  have h := runesLt_total _ _ h1 h2
  cases a; cases b; simp_all

theorem keyLt_asymm {a b : String} (h : keyLt a b = true) : keyLt b a = false := by
  cases hba : keyLt b a with
  | false => rfl
  | true => have := keyLt_trans h hba; simp [keyLt_irrefl] at this

theorem keyLt_ne {a b : String} (h : keyLt a b = true) : a ≠ b := by
  rintro rfl; simp [keyLt_irrefl] at h

theorem mapGet_mapSet (n k v : String) (m : StrMap) :
    mapGet n (mapSet k v m) = if n = k then some v else mapGet n m := by
  induction m with
  | nil => simp [mapSet, mapGet]
  | cons p t ih =>
    obtain ⟨k', v'⟩ := p
    simp only [mapSet]
    by_cases hn : n = k
    · subst hn
      by_cases h1 : keyLt n k' = true
      · simp [h1, mapGet]
      · by_cases h2 : n = k'
        · subst h2; simp [keyLt_irrefl, mapGet]
        · simp [h1, h2, mapGet, ih]
    · by_cases h1 : keyLt k k' = true
      · simp [h1, mapGet, hn]
      · by_cases h2 : k = k'
        · subst h2; simp [h1, mapGet, hn]
        · simp [h1, h2, mapGet, ih, hn]

theorem mem_mapKeys_mapSet (n k v : String) (m : StrMap) :
    n ∈ mapKeys (mapSet k v m) ↔ n = k ∨ n ∈ mapKeys m := by
  induction m with
  | nil => simp [mapSet, mapKeys]
  | cons p t ih =>
    obtain ⟨k', v'⟩ := p
    simp only [mapKeys] at ih
    simp only [mapSet]
    split_ifs with h1 h2
    · simp [mapKeys]
    · subst h2; simp [mapKeys]
    · simp only [mapKeys, List.map_cons, List.mem_cons, ih]; tauto

theorem mapGet_isSome_iff (n : String) (m : StrMap) :
    (mapGet n m).isSome = true ↔ n ∈ mapKeys m := by
  induction m with
  | nil => simp [mapGet, mapKeys]
  | cons p t ih =>
    obtain ⟨k', v'⟩ := p
    simp only [mapKeys] at ih
    by_cases h : n = k' <;> simp [mapGet, mapKeys, h, ih]

theorem keysSorted_mapSet (k v : String) (m : StrMap) (h : KeysSorted m) :
    KeysSorted (mapSet k v m) := by
  induction m with
  | nil => simp [mapSet, KeysSorted, mapKeys]
  | cons p t ih =>
    obtain ⟨k', v'⟩ := p
    simp only [KeysSorted, mapKeys, List.map_cons, List.pairwise_cons] at h
    simp only [mapSet]
    split_ifs with h1 h2
    · simp only [KeysSorted, mapKeys, List.map_cons, List.pairwise_cons, List.mem_cons]
      refine ⟨?_, h⟩
      rintro a (rfl | ha)
      · exact h1
      · exact keyLt_trans h1 (h.1 a ha)
    · subst h2
      simpa [KeysSorted, mapKeys] using h
    · have hlt : keyLt k' k = true := by
        cases hk : keyLt k' k with
        | true => rfl
        | false =>
          exact absurd (keyLt_total (by simpa using h1) hk) h2
      have ih' := ih h.2
      simp only [KeysSorted, mapKeys, List.map_cons, List.pairwise_cons]
      refine ⟨?_, ih'⟩
      intro a ha
      rcases (mem_mapKeys_mapSet a k v t).1 ha with rfl | ha'
      · exact hlt
      · exact h.1 a ha'

theorem KeysSorted.nodup {m : StrMap} (h : KeysSorted m) : (mapKeys m).Nodup :=
  List.Pairwise.imp (fun h => keyLt_ne h) h

theorem mapKeys_mapSet_congr (k v v' : String) (m m' : StrMap) (h : mapKeys m = mapKeys m') :
    mapKeys (mapSet k v m) = mapKeys (mapSet k v' m') := by
  induction m generalizing m' with
  | nil =>
    cases m' with
    | nil => simp [mapSet, mapKeys]
    | cons q t' => simp [mapKeys] at h
  | cons p t ih =>
    cases m' with
    | nil => simp [mapKeys] at h
    | cons q t' =>
      obtain ⟨a, b⟩ := p
      obtain ⟨a', b'⟩ := q
      simp only [mapKeys, List.map_cons, List.cons.injEq] at h
      obtain ⟨rfl, ht⟩ := h
      simp only [mapSet]
      split_ifs with h1 h2
      · simp [mapKeys, ht]
      · simp [mapKeys, ht]
      · have := ih t' ht
        simp only [mapKeys] at this
        simp [mapKeys, this]

theorem keyLt_tri (a b : String) : keyLt a b = true ∨ a = b ∨ keyLt b a = true := by
  cases h1 : keyLt a b with
  | true => exact Or.inl rfl
  | false =>
    cases h2 : keyLt b a with
    | true => exact Or.inr (Or.inr rfl)
    | false => exact Or.inr (Or.inl (keyLt_total h1 h2))

theorem mapSet_lt {k k' : String} (v v' : String) (t : StrMap) (h : keyLt k k' = true) :
    mapSet k v ((k', v') :: t) = (k, v) :: (k', v') :: t := by
  simp [mapSet, h]

theorem mapSet_eq (k v v' : String) (t : StrMap) :
    mapSet k v ((k, v') :: t) = (k, v) :: t := by
  simp [mapSet, keyLt_irrefl]

theorem mapSet_gt {k k' : String} (v v' : String) (t : StrMap) (h : keyLt k' k = true) :
    mapSet k v ((k', v') :: t) = (k', v') :: mapSet k v t := by
  simp [mapSet, keyLt_asymm h, (keyLt_ne h).symm]

theorem mapSet_comm (k1 v1 k2 v2 : String) (m : StrMap) (hne : k1 ≠ k2) :
    mapSet k1 v1 (mapSet k2 v2 m) = mapSet k2 v2 (mapSet k1 v1 m) := by
  induction m with
  | nil =>
    rcases keyLt_tri k1 k2 with h | h | h
    · rw [show mapSet k2 v2 [] = [(k2, v2)] from rfl, show mapSet k1 v1 [] = [(k1, v1)] from rfl,
        mapSet_lt v1 v2 _ h, mapSet_gt v2 v1 _ h]
      rfl
    · exact absurd h hne
    · rw [show mapSet k2 v2 [] = [(k2, v2)] from rfl, show mapSet k1 v1 [] = [(k1, v1)] from rfl,
        mapSet_lt v2 v1 _ h, mapSet_gt v1 v2 _ h]
      rfl
  | cons p t ih =>
    obtain ⟨k', v'⟩ := p
    rcases keyLt_tri k1 k' with h1 | e1 | h1 <;> rcases keyLt_tri k2 k' with h2 | e2 | h2
    · rcases keyLt_tri k1 k2 with h | h | h
      · rw [mapSet_lt v2 v' t h2, mapSet_lt v1 v' t h1, mapSet_lt v1 v2 _ h, mapSet_gt v2 v1 _ h,
          mapSet_lt v2 v' t h2]
      · exact absurd h hne
      · rw [mapSet_lt v2 v' t h2, mapSet_lt v1 v' t h1, mapSet_lt v2 v1 _ h, mapSet_gt v1 v2 _ h,
          mapSet_lt v1 v' t h1]
    · subst e2
      rw [mapSet_eq, mapSet_lt v1 v' t h1, mapSet_lt v1 v2 _ h1, mapSet_gt v2 v1 _ h1, mapSet_eq]
    · have h := keyLt_trans h1 h2
      rw [mapSet_gt v2 v' t h2, mapSet_lt v1 v' t h1, mapSet_lt v1 v' _ h1, mapSet_gt v2 v1 _ h,
        mapSet_gt v2 v' t h2]
    · subst e1
      rw [mapSet_eq, mapSet_lt v2 v' t h2, mapSet_lt v2 v1 _ h2, mapSet_gt v1 v2 _ h2, mapSet_eq]
    · exact absurd (e1.trans e2.symm) hne
    · subst e1
      rw [mapSet_eq, mapSet_gt v2 v' t h2, mapSet_gt v2 v1 t h2, mapSet_eq]
    · have h := keyLt_trans h2 h1
      rw [mapSet_lt v2 v' t h2, mapSet_gt v1 v' t h1, mapSet_gt v1 v2 _ h, mapSet_gt v1 v' t h1,
        mapSet_lt v2 v' _ h2]
    · subst e2
      rw [mapSet_eq, mapSet_gt v1 v' t h1, mapSet_gt v1 v2 t h1, mapSet_eq]
    · rw [mapSet_gt v2 v' t h2, mapSet_gt v1 v' t h1, mapSet_gt v1 v' _ h1, mapSet_gt v2 v' _ h2, ih]

/-! ## The reduction -/

theorem reduce_nil : reduce [] = initial := rfl

theorem reduce_snoc (rs : List CheckStatus) (r : CheckStatus) :
    reduce (rs ++ [r]) = absorb (reduce rs) r := by
  simp [reduce, List.foldl_append]

theorem absorb_unhealthy (v : healthCheckResponse) (r : CheckStatus) (h : r.Healthy = false) :
    absorb v r = ⟨"down", v.Info, r.Error, v.Details⟩ := by
  simp [absorb, h]

theorem absorb_healthy (v : healthCheckResponse) (r : CheckStatus) (h : r.Healthy = true) :
    absorb v r = ⟨v.Status, mapSet r.Name r.Info v.Info, v.Error,
      mapSet r.Name r.Details v.Details⟩ := by
  simp [absorb, h]

theorem reduce_Status (rs : List CheckStatus) :
    (reduce rs).Status = if rs.all (fun r => r.Healthy) = true then "up" else "down" := by
  induction rs using List.reverseRecOn with
  | nil => rfl
  | append_singleton l a ih =>
    rw [reduce_snoc]
    cases h : a.Healthy with
    | false => simp [absorb_unhealthy _ _ h, h]
    | true =>
      rw [absorb_healthy _ _ h]
      simp only [ih, List.all_append, List.all_cons, h, List.all_nil, Bool.and_true]

theorem reduce_Error (rs : List CheckStatus) :
    (reduce rs).Error =
      match (rs.filter fun r => !r.Healthy).getLast? with
      | some r => r.Error
      | none => "" := by
  induction rs using List.reverseRecOn with
  | nil => rfl
  | append_singleton l a ih =>
    rw [reduce_snoc]
    cases h : a.Healthy with
    | false => simp [absorb_unhealthy _ _ h, h, List.filter_append]
    | true =>
      rw [absorb_healthy _ _ h]
      simpa [List.filter_append, h] using ih

theorem reduce_Info_get (rs : List CheckStatus) (n : String) :
    mapGet n (reduce rs).Info =
      ((rs.filter fun r => r.Healthy && decide (r.Name = n)).getLast?).map fun r => r.Info := by
  induction rs using List.reverseRecOn with
  | nil => rfl
  | append_singleton l a ih =>
    rw [reduce_snoc]
    cases h : a.Healthy with
    | false => simpa [absorb_unhealthy _ _ h, h, List.filter_append] using ih
    | true =>
      rw [absorb_healthy _ _ h]
      simp only [mapGet_mapSet, List.filter_append]
      by_cases hn : n = a.Name
      · subst hn; simp [h]
      · have : ¬ a.Name = n := fun e => hn e.symm
        simpa [hn, h, this] using ih

theorem reduce_Details_get (rs : List CheckStatus) (n : String) :
    mapGet n (reduce rs).Details =
      ((rs.filter fun r => r.Healthy && decide (r.Name = n)).getLast?).map fun r => r.Details := by
  induction rs using List.reverseRecOn with
  | nil => rfl
  | append_singleton l a ih =>
    rw [reduce_snoc]
    cases h : a.Healthy with
    | false => simpa [absorb_unhealthy _ _ h, h, List.filter_append] using ih
    | true =>
      rw [absorb_healthy _ _ h]
      simp only [mapGet_mapSet, List.filter_append]
      by_cases hn : n = a.Name
      · subst hn; simp [h]
      · have : ¬ a.Name = n := fun e => hn e.symm
        simpa [hn, h, this] using ih

theorem reduce_keys_eq (rs : List CheckStatus) :
    mapKeys (reduce rs).Info = mapKeys (reduce rs).Details := by
  induction rs using List.reverseRecOn with
  | nil => rfl
  | append_singleton l a ih =>
    rw [reduce_snoc]
    cases h : a.Healthy with
    | false => simpa [absorb_unhealthy _ _ h] using ih
    | true =>
      rw [absorb_healthy _ _ h]
      exact mapKeys_mapSet_congr _ _ _ _ _ ih

theorem reduce_sorted (rs : List CheckStatus) :
    KeysSorted (reduce rs).Info ∧ KeysSorted (reduce rs).Details := by
  induction rs using List.reverseRecOn with
  | nil => simp [reduce, initial, KeysSorted, mapKeys]
  | append_singleton l a ih =>
    rw [reduce_snoc]
    cases h : a.Healthy with
    | false => simpa [absorb_unhealthy _ _ h] using ih
    | true =>
      rw [absorb_healthy _ _ h]
      exact ⟨keysSorted_mapSet _ _ _ ih.1, keysSorted_mapSet _ _ _ ih.2⟩

theorem reduce_mem_keys (rs : List CheckStatus) (n : String) :
    n ∈ mapKeys (reduce rs).Info ↔ ∃ r ∈ rs, r.Healthy = true ∧ r.Name = n := by
  induction rs using List.reverseRecOn with
  | nil => simp [reduce, initial, mapKeys]
  | append_singleton l a ih =>
    rw [reduce_snoc]
    cases h : a.Healthy with
    | false =>
      simp only [absorb_unhealthy _ _ h, ih, List.mem_append, List.mem_singleton]
      constructor
      · rintro ⟨r, hr, h1, h2⟩; exact ⟨r, Or.inl hr, h1, h2⟩
      · rintro ⟨r, hr | rfl, h1, h2⟩
        · exact ⟨r, hr, h1, h2⟩
        · simp [h] at h1
    | true =>
      simp only [absorb_healthy _ _ h, mem_mapKeys_mapSet, ih, List.mem_append, List.mem_singleton]
      constructor
      · rintro (rfl | ⟨r, hr, h1, h2⟩)
        · exact ⟨a, Or.inr rfl, h, rfl⟩
        · exact ⟨r, Or.inl hr, h1, h2⟩
      · rintro ⟨r, hr | rfl, h1, h2⟩
        · exact Or.inr ⟨r, hr, h1, h2⟩
        · exact Or.inl h2.symm

theorem exists_last_unhealthy (rs : List CheckStatus) (h : ∃ r ∈ rs, r.Healthy = false) :
    ∃ pre u post, rs = pre ++ u :: post ∧ u.Healthy = false ∧ ∀ r ∈ post, r.Healthy = true := by
  induction rs using List.reverseRecOn with
  | nil =>
    obtain ⟨r, hr, -⟩ := h
    simp at hr
  | append_singleton l a ih =>
    cases ha : a.Healthy with
    | false => exact ⟨l, a, [], rfl, ha, by simp⟩
    | true =>
      obtain ⟨r, hr, hf⟩ := h
      have hrl : r ∈ l := by
        rcases List.mem_append.1 hr with hr' | hr'
        · exact hr'
        · rw [List.mem_singleton.1 hr', ha] at hf
          simp at hf
      obtain ⟨pre, u, post, hl, hu, hpost⟩ := ih ⟨r, hrl, hf⟩
      refine ⟨pre, u, post ++ [a], by rw [hl]; simp, hu, ?_⟩
      intro x hx
      rcases List.mem_append.1 hx with hx' | hx'
      · exact hpost x hx'
      · rw [List.mem_singleton.1 hx']; exact ha

/-! ## The handler -/

theorem respond_fresh (v : healthCheckResponse) :
    respond ResponseWriter.fresh v =
      ⟨[("Content-Type", "application/json")], some (if v.Status = "up" then 200 else 503),
        encodeStruct v.fields⟩ := by
  by_cases h : v.Status = "up" <;>
    simp [respond, jsonMarshal, ResponseWriter.fresh, ResponseWriter.SetHeader,
      ResponseWriter.WriteHeader, ResponseWriter.Write, mapSet, h]

theorem pick_perm : ∀ (i : Nat) (x : CheckStatus) (xs : List CheckStatus),
    ((pick i x xs).1 :: (pick i x xs).2).Perm (x :: xs)
  | 0, _, _ => List.Perm.refl _
  | _ + 1, _, [] => List.Perm.refl _
  | i + 1, x, y :: ys => by
    simp only [pick]
    exact (List.Perm.swap _ _ _).trans ((pick_perm i y ys).cons x)

theorem arrive_perm : ∀ (sched : List Nat) (p : List CheckStatus), (arrive sched p).Perm p
  | [], [] => List.Perm.refl _
  | _ :: _, [] => List.Perm.refl _
  | [], _ :: _ => List.Perm.refl _
  | i :: is, x :: xs => by
    simp only [arrive]
    exact ((arrive_perm is _).cons _).trans (pick_perm i x xs)

theorem collect_all (xs : List CheckStatus) (l : Loop) :
    collect xs.length xs l = ⟨xs.foldl absorb l.result, l.received ++ xs, l.blocked⟩ := by
  induction xs generalizing l with
  | nil => simp [collect]
  | cons x xs ih => simp [collect, ih]

theorem readiness_eq (s : checkServer) (w : ResponseWriter) (req : Request) (sched : List Nat) :
    readiness s w req sched =
      { w := respond w (reduce (arrive sched (s.healthCheckers.map fun f => f req.ctx))),
        cap := s.healthCheckers.length,
        launched := s.healthCheckers.map fun f => f req.ctx,
        awaited := s.healthCheckers.length,
        received := arrive sched (s.healthCheckers.map fun f => f req.ctx),
        result := some (reduce (arrive sched (s.healthCheckers.map fun f => f req.ctx))),
        blocked := false } := by
  have hlen : s.healthCheckers.length
      = (arrive sched (s.healthCheckers.map fun f => f req.ctx)).length := by
    rw [(arrive_perm _ _).length_eq, List.length_map]
  simp only [readiness, readinessAt]
  rw [hlen, collect_all]
  simp [reduce]

theorem pick_of_mem (z : CheckStatus) : ∀ (xs : List CheckStatus) (x : CheckStatus),
    z ∈ x :: xs → ∃ i, (pick i x xs).1 = z
  | [], x, h => ⟨0, by simpa using (List.mem_singleton.1 h).symm⟩
  | y :: ys, x, h => by
    rcases List.mem_cons.1 h with rfl | h'
    · exact ⟨0, rfl⟩
    · obtain ⟨i, hi⟩ := pick_of_mem z ys y h'
      exact ⟨i + 1, by simpa [pick] using hi⟩

theorem arrive_complete : ∀ (q p : List CheckStatus), q.Perm p → ∃ sched, arrive sched p = q
  | [], p, h => by
    rw [List.nil_perm.1 h]
    exact ⟨[], rfl⟩
  | z :: t, [], h => absurd (List.perm_nil.1 h) (by simp)
  | z :: t, x :: xs, h => by
    obtain ⟨i, hi⟩ := pick_of_mem z xs x (h.mem_iff.1 (List.mem_cons_self z t))
    have hp := pick_perm i x xs
    rw [hi] at hp
    have ht : t.Perm (pick i x xs).2 := (List.Perm.cons_inv (hp.trans h.symm)).symm
    obtain ⟨sched, hs⟩ := arrive_complete t _ ht
    exact ⟨i :: sched, by simp [arrive, hi, hs]⟩

theorem reduce_filter_healthy (rs : List CheckStatus) :
    (reduce (rs.filter fun r => r.Healthy)).Info = (reduce rs).Info ∧
    (reduce (rs.filter fun r => r.Healthy)).Details = (reduce rs).Details := by
  induction rs using List.reverseRecOn with
  | nil => exact ⟨rfl, rfl⟩
  | append_singleton l a ih =>
    rw [List.filter_append, reduce_snoc]
    cases h : a.Healthy with
    | false =>
      simpa [List.filter_cons, h, absorb_unhealthy _ _ h] using ih
    | true =>
      simp only [List.filter_cons, h, if_true, List.filter_nil, reduce_snoc,
        absorb_healthy _ _ h, ih.1, ih.2, and_self]

theorem jsonMarshal_eq (v : healthCheckResponse) : jsonMarshal v = .ok (verdictJson v) := by
  have hE : (v.Error.data.length == 0) = decide (v.Error = "") := by
    cases v.Error with
    | mk d => cases d <;> simp [String.ext_iff]
  have hI : (v.Info.length == 0) = decide (v.Info = []) := by
    cases v.Info <;> simp
  have hD : (v.Details.length == 0) = decide (v.Details = []) := by
    cases v.Details <;> simp
  have e0 : "\x7b\"status\":" = "\x7b" ++ "\"status\":" := by decide
  have e1 : ",\"info\":" = "," ++ "\"info\":" := by decide
  have e2 : ",\"error\":" = "," ++ "\"error\":" := by decide
  have e3 : ",\"details\":" = "," ++ "\"details\":" := by decide
  simp only [jsonMarshal, verdictJson, verdictMembers, healthCheckResponse.fields, encodeStruct,
    encodeFields, isEmptyValue, hE, hI, hD, encodeValue, member]
  by_cases h1 : v.Info = [] <;> by_cases h2 : v.Error = "" <;> by_cases h3 : v.Details = [] <;>
    simp [h1, h2, h3, String.intercalate, String.intercalate.go, String.append_assoc] <;>
    simp only [e0, e1, e2, e3, String.append_assoc]

theorem arrive_singleton (sched : List Nat) (x : CheckStatus) : arrive sched [x] = [x] := by
  cases sched with
  | nil => rfl
  | cons i is => cases i <;> cases is <;> rfl

theorem reduce_Info_ne_nil (rs : List CheckStatus) :
    ((reduce rs).Info ≠ [] ↔ ∃ r ∈ rs, r.Healthy = true) ∧
    ((reduce rs).Details ≠ [] ↔ ∃ r ∈ rs, r.Healthy = true) := by
  have hI : (reduce rs).Info ≠ [] ↔ ∃ r ∈ rs, r.Healthy = true := by
    constructor
    · intro h
      obtain ⟨p, hp⟩ := List.exists_mem_of_ne_nil _ h
      have : p.1 ∈ mapKeys (reduce rs).Info := List.mem_map_of_mem _ hp
      obtain ⟨r, hr, hh, -⟩ := (reduce_mem_keys rs p.1).1 this
      exact ⟨r, hr, hh⟩
    · rintro ⟨r, hr, hh⟩ hnil
      have := (reduce_mem_keys rs r.Name).2 ⟨r, hr, hh, rfl⟩
      simp [hnil, mapKeys] at this
  refine ⟨hI, ?_⟩
  rw [← hI]
  have hk := reduce_keys_eq rs
  simp only [mapKeys] at hk
  constructor
  · intro h hnil
    rw [hnil] at hk
    exact h (by simpa using hk)
  · intro h hnil
    rw [hnil] at hk
    exact h (by simpa using hk.symm)

/-! ## Arrival order -/

theorem absorb_comm (z : healthCheckResponse) (x y : CheckStatus)
    (hh : x.Healthy = true → y.Healthy = true → x ≠ y → x.Name ≠ y.Name)
    (hu : x.Healthy = false → y.Healthy = false → x = y) :
    absorb (absorb z x) y = absorb (absorb z y) x := by
  by_cases hxy : x = y
  · rw [hxy]
  cases hx : x.Healthy <;> cases hy : y.Healthy
  · exact absurd (hu hx hy) hxy
  · rw [absorb_unhealthy _ _ hx, absorb_healthy _ _ hy, absorb_healthy _ _ hy,
      absorb_unhealthy _ _ hx]
  · rw [absorb_unhealthy _ _ hy, absorb_healthy _ _ hx, absorb_healthy _ _ hx,
      absorb_unhealthy _ _ hy]
  · have hne := hh hx hy hxy
    rw [absorb_healthy _ _ hx, absorb_healthy _ _ hy, absorb_healthy _ _ hy,
      absorb_healthy _ _ hx]
    simp only [mapSet_comm _ _ _ _ _ hne]

theorem eq_of_mem_of_length_le_one {α : Type} {l : List α} (h : l.length ≤ 1) {x y : α}
    (hx : x ∈ l) (hy : y ∈ l) : x = y := by
  match l, h with
  | [], _ => simp at hx
  | [a], _ =>
    rw [List.mem_singleton] at hx hy
    rw [hx, hy]
  | _ :: _ :: _, h => simp at h

theorem reduce_perm_of_distinct {rs rs' : List CheckStatus} (hp : rs.Perm rs')
    (hn : ((rs.filter fun r => r.Healthy).map fun r => r.Name).Nodup)
    (hu : (rs.filter fun r => !r.Healthy).length ≤ 1) : reduce rs = reduce rs' := by
  refine hp.foldl_eq' ?_ initial
  intro x hx y hy z
  refine (absorb_comm z y x ?_ ?_).symm
  · intro hyh hxh hne hname
    exact hne (List.inj_on_of_nodup_map hn (List.mem_filter.2 ⟨hy, hyh⟩)
      (List.mem_filter.2 ⟨hx, hxh⟩) hname)
  · intro hyh hxh
    exact eq_of_mem_of_length_le_one hu (List.mem_filter.2 ⟨hy, by simp [hyh]⟩)
      (List.mem_filter.2 ⟨hx, by simp [hxh]⟩)

theorem eq_of_keysSorted {k k' : List String}
    (hs : k.Pairwise fun a b => keyLt a b = true) (hs' : k'.Pairwise fun a b => keyLt a b = true)
    (hm : ∀ n, n ∈ k ↔ n ∈ k') : k = k' := by
  have hnd : k.Nodup := List.Pairwise.imp (fun h => keyLt_ne h) hs
  have hnd' : k'.Nodup := List.Pairwise.imp (fun h => keyLt_ne h) hs'
  have hperm : k.Perm k' := (List.perm_ext_iff_of_nodup hnd hnd').2 hm
  refine List.Perm.eq_of_sorted ?_ hs hs' hperm
  intro a b _ _ h1 h2
  rw [keyLt_asymm h1] at h2
  exact absurd h2 (by simp)

theorem perm_eq_of_length_le_one {α : Type} {l l' : List α} (hp : l.Perm l')
    (h : l.length ≤ 1) : l = l' := by
  match l, h with
  | [], _ => exact (List.nil_perm.1 hp).symm
  | [a], _ => exact List.singleton_perm.1 hp
  | _ :: _ :: _, h => simp at h

/-! ## Interleaved registrations -/

theorem observe_adds (s : checkServer) (pre : List (List Checker)) (es : List Event) :
    observe s (pre.map Event.add ++ es) = observe (pre.foldl AddHealthChecker s) es := by
  induction pre generalizing s with
  | nil => rfl
  | cons cs pre ih => exact ih (AddHealthChecker s cs)

theorem length_adds (s : checkServer) (pre : List (List Checker)) :
    (pre.foldl AddHealthChecker s).healthCheckers.length
      = s.healthCheckers.length + (pre.map List.length).sum := by
  induction pre generalizing s with
  | nil => simp
  | cons cs pre ih =>
    simp only [List.foldl_cons, ih, AddHealthChecker, List.length_append, List.map_cons,
      List.sum_cons]
    omega

theorem collect_take (n : Nat) (xs : List CheckStatus) (l : Loop) :
    collect n xs l = ⟨(xs.take n).foldl absorb l.result, l.received ++ xs.take n,
      l.blocked || decide (xs.length < n)⟩ := by
  induction n generalizing xs l with
  | zero => simp [collect]
  | succ n ih =>
    cases xs with
    | nil => simp [collect]
    | cons x xs => simp [collect, ih]

/-! ## Claims -/

/-- C1: for every collected sequence, the response is 200 with verdict "up" exactly
when every result is healthy, and 503 with verdict "down" exactly when some result is
unhealthy; marshalling never fails, so no other combination is written. The
handler receives some permutation of the launched results, every permutation
arises from some schedule, and the same equivalences hold for what it writes. -/
theorem readiness_code_status (rs : List CheckStatus) :
    (((respond ResponseWriter.fresh (reduce rs)).status = some 200 ∧ (reduce rs).Status = "up")
        ↔ ∀ r ∈ rs, r.Healthy = true) ∧
    (((respond ResponseWriter.fresh (reduce rs)).status = some 503 ∧ (reduce rs).Status = "down")
        ↔ ∃ r ∈ rs, r.Healthy = false) ∧
    (((respond ResponseWriter.fresh (reduce rs)).status = some 200 ∧ (reduce rs).Status = "up") ∨
      ((respond ResponseWriter.fresh (reduce rs)).status = some 503 ∧
        (reduce rs).Status = "down")) ∧
    jsonMarshal (reduce rs) = .ok (respond ResponseWriter.fresh (reduce rs)).body ∧
    (∀ (s : checkServer) (req : Request) (q : List CheckStatus),
      q.Perm (s.healthCheckers.map fun f => f req.ctx) →
      ∃ sched, (readiness s ResponseWriter.fresh req sched).received = q) ∧
    ∀ (s : checkServer) (req : Request) (sched : List Nat),
      (readiness s ResponseWriter.fresh req sched).blocked = false ∧
      (readiness s ResponseWriter.fresh req sched).received.Perm
        (s.healthCheckers.map fun f => f req.ctx) ∧
      (readiness s ResponseWriter.fresh req sched).result
        = some (reduce (readiness s ResponseWriter.fresh req sched).received) ∧
      (readiness s ResponseWriter.fresh req sched).w
        = respond ResponseWriter.fresh
            (reduce (readiness s ResponseWriter.fresh req sched).received) ∧
      (((readiness s ResponseWriter.fresh req sched).w.status = some 200 ∧
          (readiness s ResponseWriter.fresh req sched).result.map (fun v => v.Status) = some "up")
        ↔ ∀ r ∈ (readiness s ResponseWriter.fresh req sched).received, r.Healthy = true) ∧
      (((readiness s ResponseWriter.fresh req sched).w.status = some 503 ∧
          (readiness s ResponseWriter.fresh req sched).result.map (fun v => v.Status)
            = some "down")
        ↔ ∃ r ∈ (readiness s ResponseWriter.fresh req sched).received, r.Healthy = false) := by
  have key : ∀ l : List CheckStatus,
      (((respond ResponseWriter.fresh (reduce l)).status = some 200 ∧ (reduce l).Status = "up")
          ↔ ∀ r ∈ l, r.Healthy = true) ∧
      (((respond ResponseWriter.fresh (reduce l)).status = some 503 ∧ (reduce l).Status = "down")
          ↔ ∃ r ∈ l, r.Healthy = false) := by
    intro l
    rw [respond_fresh, reduce_Status]
    by_cases h : l.all (fun r => r.Healthy) = true
    · have h' := h
      rw [List.all_eq_true] at h'
      simp only [h, if_true]
      refine ⟨by simpa using h', ?_⟩
      constructor
      · rintro ⟨h1, -⟩; simp at h1
      · rintro ⟨r, hr, hf⟩; have := h' r hr; simp [hf] at this
    · have h' := h
      rw [List.all_eq_true] at h'
      push_neg at h'
      obtain ⟨r, hr, hf⟩ := h'
      have hf' : r.Healthy = false := by simpa using hf
      simp only [h]
      constructor
      · constructor
        · rintro ⟨h1, -⟩; simp at h1
        · intro hall; exact absurd (hall r hr) hf
      · constructor
        · intro _; exact ⟨r, hr, hf'⟩
        · intro _; simp
  refine ⟨(key rs).1, (key rs).2, ?_, ?_, ?_, ?_⟩
  · by_cases h : ∀ r ∈ rs, r.Healthy = true
    · exact Or.inl ((key rs).1.2 h)
    · push_neg at h
      obtain ⟨r, hr, hf⟩ := h
      exact Or.inr ((key rs).2.2 ⟨r, hr, by simpa using hf⟩)
  · rw [respond_fresh]; rfl
  · intro s req q hq
    obtain ⟨sched, hs⟩ := arrive_complete q _ hq
    exact ⟨sched, by rw [readiness_eq]; exact hs⟩
  · intro s req sched
    rw [readiness_eq]
    refine ⟨rfl, arrive_perm _ _, rfl, rfl, ?_, ?_⟩
    · simpa using (key _).1
    · simpa using (key _).2

/-- C2 (as stated) fails: one unhealthy result whose Error string is empty, as in
the repository's own test, leaves the verdict's Error empty and the body without
an error member. -/
theorem error_empty_counterexample :
    (∃ r ∈ [(⟨"test", false, "", "", ""⟩ : CheckStatus)], r.Healthy = false) ∧
    (reduce [⟨"test", false, "", "", ""⟩]).Error = "" ∧
    (readiness ⟨⟨":3000"⟩, 0, [fun _ => ⟨"test", false, "", "", ""⟩]⟩
        ResponseWriter.fresh ⟨⟨0⟩⟩ []).w
      = ⟨[("Content-Type", "application/json")], some 503, "\x7b\"status\":\"down\"\x7d"⟩ := by
  refine ⟨⟨_, List.mem_singleton.2 rfl, rfl⟩, by decide, by decide⟩

/-- C2 (amended): when some collected result is unhealthy, the verdict's Error is
the Error string of some unhealthy collected result, namely of the last unhealthy
one to arrive; it is non-empty exactly when that last unhealthy result carries a
non-empty Error string, and in particular whenever every unhealthy collected result
does. -/
theorem error_of_some_unhealthy (rs : List CheckStatus)
    (h : ∃ r ∈ rs, r.Healthy = false) :
    (∃ r ∈ rs, r.Healthy = false ∧ (reduce rs).Error = r.Error) ∧
    ((∀ r ∈ rs, r.Healthy = false → r.Error ≠ "") → (reduce rs).Error ≠ "") ∧
    (∃ pre u post, rs = pre ++ u :: post ∧ u.Healthy = false ∧
      (∀ r ∈ post, r.Healthy = true) ∧ (reduce rs).Error = u.Error ∧
      ((reduce rs).Error ≠ "" ↔ u.Error ≠ "")) ∧
    (∀ (pre post : List CheckStatus) (u : CheckStatus), rs = pre ++ u :: post →
      u.Healthy = false → (∀ r ∈ post, r.Healthy = true) →
      (reduce rs).Error = u.Error ∧ ((reduce rs).Error ≠ "" ↔ u.Error ≠ "")) := by
  have hlast : ∀ (pre post : List CheckStatus) (u : CheckStatus), rs = pre ++ u :: post →
      u.Healthy = false → (∀ r ∈ post, r.Healthy = true) → (reduce rs).Error = u.Error := by
    intro pre post u hrs hu hpost
    have hnil : (post.filter fun r => !r.Healthy) = [] := by
      rw [List.filter_eq_nil_iff]
      intro r hr
      simp [hpost r hr]
    rw [hrs, reduce_Error]
    simp [List.filter_append, List.filter_cons, hu, hnil]
  obtain ⟨pre, u, post, hrs, hu, hpost⟩ := exists_last_unhealthy rs h
  have he := hlast pre post u hrs hu hpost
  have hmem : u ∈ rs := by rw [hrs]; simp
  refine ⟨⟨u, hmem, hu, he⟩, ?_, ⟨pre, u, post, hrs, hu, hpost, he, by rw [he]⟩, ?_⟩
  · intro hne
    rw [he]
    exact hne u hmem hu
  · intro pre' post' u' hrs' hu' hpost'
    have he' := hlast pre' post' u' hrs' hu' hpost'
    exact ⟨he', by rw [he']⟩

/-- C2 (amended) at an unhealthy result with an empty Error followed by one with
Error "boom": the verdict carries "boom". -/
theorem error_of_some_unhealthy_witness :
    (reduce [⟨"a", false, "", "", ""⟩, ⟨"b", false, "", "", "boom"⟩]).Error = "boom" ∧
    ((reduce [⟨"a", false, "", "", ""⟩, ⟨"b", false, "", "", "boom"⟩]).Error ≠ ""
      ↔ "boom" ≠ "") :=
  (error_of_some_unhealthy [⟨"a", false, "", "", ""⟩, ⟨"b", false, "", "", "boom"⟩]
    ⟨⟨"a", false, "", "", ""⟩, by decide, rfl⟩).2.2.2
    [⟨"a", false, "", "", ""⟩] [] ⟨"b", false, "", "", "boom"⟩ rfl rfl (by decide)

/-- C3: the verdict's Error is the Error string of the last unhealthy result of the
arrival sequence, copied verbatim, and the empty string when no result is unhealthy;
healthy results arriving afterwards leave it unchanged. -/
theorem error_is_last_unhealthy (pre post : List CheckStatus) (u : CheckStatus) :
    (u.Healthy = false → (∀ r ∈ post, r.Healthy = true) →
      (reduce (pre ++ u :: post)).Error = u.Error) ∧
    ((∀ r ∈ pre, r.Healthy = true) → (reduce pre).Error = "") ∧
    ((∀ r ∈ post, r.Healthy = true) → (reduce (pre ++ post)).Error = (reduce pre).Error) ∧
    (reduce pre).Error =
      (match (pre.filter fun r => !r.Healthy).getLast? with
        | some r => r.Error
        | none => "") := by
  have hfilter : ∀ l : List CheckStatus, (∀ r ∈ l, r.Healthy = true) →
      (l.filter fun r => !r.Healthy) = [] := by
    intro l hl
    rw [List.filter_eq_nil_iff]
    intro r hr
    simp [hl r hr]
  refine ⟨?_, ?_, ?_, reduce_Error pre⟩
  · intro hu hpost
    rw [reduce_Error]
    simp [List.filter_append, List.filter_cons, hu, hfilter post hpost]
  · intro hpre
    rw [reduce_Error, hfilter pre hpre]
    rfl
  · intro hpost
    rw [reduce_Error, reduce_Error, List.filter_append, hfilter post hpost, List.append_nil]

/-- C3 at a sequence with two unhealthy results followed by a healthy one. -/
theorem error_is_last_unhealthy_witness :
    (reduce ([⟨"a", false, "", "", "first"⟩, ⟨"b", true, "i", "d", "ignored"⟩]
        ++ ⟨"c", false, "", "", "second"⟩ :: [⟨"d", true, "", "", ""⟩])).Error = "second" :=
  (error_is_last_unhealthy [⟨"a", false, "", "", "first"⟩, ⟨"b", true, "i", "d", "ignored"⟩]
    [⟨"d", true, "", "", ""⟩] ⟨"c", false, "", "", "second"⟩).1 rfl (by decide)

/-- C4: Info and Details have the same keys, one per distinct Name of a healthy
result and none from an unhealthy one; under each such name they hold the Info and
Details strings of the last healthy result of that name in arrival order; unhealthy
results in the sequence change neither map. -/
theorem info_details_of_healthy (rs : List CheckStatus) :
    mapKeys (reduce rs).Info = mapKeys (reduce rs).Details ∧
    (mapKeys (reduce rs).Info).Nodup ∧
    (∀ n, n ∈ mapKeys (reduce rs).Info ↔ ∃ r ∈ rs, r.Healthy = true ∧ r.Name = n) ∧
    (∀ n, mapGet n (reduce rs).Info =
      ((rs.filter fun r => r.Healthy && decide (r.Name = n)).getLast?).map fun r => r.Info) ∧
    (∀ n, mapGet n (reduce rs).Details =
      ((rs.filter fun r => r.Healthy && decide (r.Name = n)).getLast?).map fun r => r.Details) ∧
    (∀ (pre post : List CheckStatus) (h : CheckStatus), rs = pre ++ h :: post →
      h.Healthy = true → (∀ r ∈ post, r.Healthy = true → r.Name ≠ h.Name) →
      mapGet h.Name (reduce rs).Info = some h.Info ∧
      mapGet h.Name (reduce rs).Details = some h.Details) ∧
    (reduce (rs.filter fun r => r.Healthy)).Info = (reduce rs).Info ∧
    (reduce (rs.filter fun r => r.Healthy)).Details = (reduce rs).Details := by
  refine ⟨reduce_keys_eq rs, (reduce_sorted rs).1.nodup, reduce_mem_keys rs,
    reduce_Info_get rs, reduce_Details_get rs, ?_, reduce_filter_healthy rs⟩
  intro pre post h hrs hh hpost
  have hfilter : (post.filter fun r => r.Healthy && decide (r.Name = h.Name)) = [] := by
    rw [List.filter_eq_nil_iff]
    intro r hr
    cases hrh : r.Healthy with
    | false => simp
    | true => simpa [hrh] using hpost r hr hrh
  subst hrs
  rw [reduce_Info_get, reduce_Details_get]
  simp [List.filter_append, List.filter_cons, hh, hfilter]

/-- C5: with an empty registry the handler makes a channel of capacity zero, starts
no checker, performs no receive, does not block, and writes 200 with the verdict
"up", empty Info and Details, empty Error, rendered as the body with the single
member status. -/
theorem readiness_empty_registry (s : checkServer) (req : Request) (sched : List Nat)
    (h : s.healthCheckers = []) :
    readiness s ResponseWriter.fresh req sched =
      { w := ⟨[("Content-Type", "application/json")], some 200, "\x7b\"status\":\"up\"\x7d"⟩,
        cap := 0, launched := [], awaited := 0, received := [],
        result := some ⟨"up", [], "", []⟩, blocked := false } := by
  rw [readiness_eq, h]
  simp only [List.map_nil, List.length_nil, arrive, reduce_nil, respond_fresh]
  decide

/-- C5 at the server returned by NewHealthCheckServer. -/
theorem readiness_empty_registry_witness :
    readiness (NewHealthCheckServer 3000) ResponseWriter.fresh ⟨⟨0⟩⟩ [] =
      { w := ⟨[("Content-Type", "application/json")], some 200, "\x7b\"status\":\"up\"\x7d"⟩,
        cap := 0, launched := [], awaited := 0, received := [],
        result := some ⟨"up", [], "", []⟩, blocked := false } :=
  readiness_empty_registry (NewHealthCheckServer 3000) ⟨⟨0⟩⟩ [] rfl

/-- C6: the body of /ready is the verdict rendered as one JSON object with the
members status, info, error, details in this order, status always, info and details
exactly when their map is non-empty (some healthy result was collected), error
exactly when the Error string is non-empty; the two end-to-end scenarios of the
spec give the stated status codes and bodies. -/
theorem ready_body_shape (rs : List CheckStatus) :
    (∀ v, jsonMarshal v = .ok (verdictJson v)) ∧
    (respond ResponseWriter.fresh (reduce rs)).body = verdictJson (reduce rs) ∧
    ((reduce rs).Info ≠ [] ↔ ∃ r ∈ rs, r.Healthy = true) ∧
    ((reduce rs).Details ≠ [] ↔ ∃ r ∈ rs, r.Healthy = true) ∧
    (∀ (req : Request) (sched : List Nat),
      (readiness ⟨⟨":3000"⟩, 0, [fun _ => ⟨"db", true, "ok", "v1", ""⟩]⟩
          ResponseWriter.fresh req sched).w.status = some 200 ∧
      (readiness ⟨⟨":3000"⟩, 0, [fun _ => ⟨"db", true, "ok", "v1", ""⟩]⟩
          ResponseWriter.fresh req sched).w.body
        = "\x7b\"status\":\"up\",\"info\":\x7b\"db\":\"ok\"\x7d,\"details\":\x7b\"db\":\"v1\"\x7d\x7d") ∧
    (∀ (req : Request) (sched : List Nat),
      (readiness ⟨⟨":3000"⟩, 0, [fun _ => ⟨"db", false, "", "", "timeout"⟩]⟩
          ResponseWriter.fresh req sched).w.status = some 503 ∧
      (readiness ⟨⟨":3000"⟩, 0, [fun _ => ⟨"db", false, "", "", "timeout"⟩]⟩
          ResponseWriter.fresh req sched).w.body
        = "\x7b\"status\":\"down\",\"error\":\"timeout\"\x7d") := by
  refine ⟨jsonMarshal_eq, ?_, (reduce_Info_ne_nil rs).1, (reduce_Info_ne_nil rs).2, ?_, ?_⟩
  · have h := jsonMarshal_eq (reduce rs)
    rw [respond_fresh]
    simp only [jsonMarshal, Except.ok.injEq] at h
    exact h
  · intro req sched
    rw [readiness_eq]
    simp only [List.map_cons, List.map_nil, arrive_singleton, respond_fresh]
    constructor <;> decide
  · intro req sched
    rw [readiness_eq]
    simp only [List.map_cons, List.map_nil, arrive_singleton, respond_fresh]
    constructor <;> decide

/-- C7 (as stated) fails: with one registered checker, an AddHealthChecker call that
lands after the launch loop and before the collect loop makes the request wait for
two results while the channel has capacity one and one checker was launched; after
one receive the handler is parked in a receive that nothing will ever satisfy, and
no response is written. -/
theorem snapshot_counterexample :
    readinessUnder ⟨⟨":3000"⟩, 0, [fun _ => ⟨"a", true, "i", "d", ""⟩]⟩
        [Event.read, Event.read, Event.add [fun _ => ⟨"b", true, "", "", ""⟩], Event.read]
        ResponseWriter.fresh ⟨⟨0⟩⟩ []
      = some { w := ResponseWriter.fresh, cap := 1, launched := [⟨"a", true, "i", "d", ""⟩],
               awaited := 2, received := [⟨"a", true, "i", "d", ""⟩],
               result := some ⟨"up", [("a", "i")], "", [("a", "d")]⟩, blocked := true } := by
  decide

/-- C7 (amended): under every interleaving the request makes a channel of the
capacity read at line 105, launches the checkers read at line 108 and waits for as
many results as the registry read at line 122 holds; these are one number N, all N
results are collected and the handler does not block, in every interleaving in
which no checker is added between the first and the last of these reads; a checker
added between the launch loop and the collect loop leaves the handler blocked. -/
theorem snapshot_when_no_add_between_reads (s : checkServer)
    (pre mid1 mid2 post : List (List Checker)) (w : ResponseWriter) (req : Request)
    (sched : List Nat) :
    (readinessUnder s
        (pre.map Event.add ++ Event.read :: Event.read :: Event.read :: post.map Event.add)
        w req sched
      = some (readiness (pre.foldl AddHealthChecker s) w req sched) ∧
     (readiness (pre.foldl AddHealthChecker s) w req sched).cap
        = s.healthCheckers.length + (pre.map List.length).sum ∧
     (readiness (pre.foldl AddHealthChecker s) w req sched).launched.length
        = s.healthCheckers.length + (pre.map List.length).sum ∧
     (readiness (pre.foldl AddHealthChecker s) w req sched).awaited
        = s.healthCheckers.length + (pre.map List.length).sum ∧
     (readiness (pre.foldl AddHealthChecker s) w req sched).received.length
        = s.healthCheckers.length + (pre.map List.length).sum ∧
     (readiness (pre.foldl AddHealthChecker s) w req sched).blocked = false) ∧
    ∃ o, readinessUnder s
        (pre.map Event.add ++ Event.read :: (mid1.map Event.add ++ Event.read ::
          (mid2.map Event.add ++ Event.read :: post.map Event.add)))
        w req sched = some o ∧
      o.cap = s.healthCheckers.length + (pre.map List.length).sum ∧
      o.launched.length = o.cap + (mid1.map List.length).sum ∧
      o.awaited = o.launched.length + (mid2.map List.length).sum ∧
      o.received.length = o.launched.length ∧
      (o.blocked = true ↔ 0 < (mid2.map List.length).sum) ∧
      ((mid1.map List.length).sum = 0 → (mid2.map List.length).sum = 0 →
        o.cap = o.launched.length ∧ o.launched.length = o.awaited ∧
        o.received.length = o.awaited ∧ o.blocked = false) := by
  constructor
  · refine ⟨?_, ?_⟩
    · simp only [readinessUnder, observe_adds, observe, readiness]
    · rw [readiness_eq]
      simp only [(arrive_perm _ _).length_eq, List.length_map, length_adds, true_and]
  · refine ⟨readinessAt (pre.foldl AddHealthChecker s)
      (mid1.foldl AddHealthChecker (pre.foldl AddHealthChecker s))
      (mid2.foldl AddHealthChecker (mid1.foldl AddHealthChecker (pre.foldl AddHealthChecker s)))
      w req sched, ?_, ?_⟩
    · simp only [readinessUnder, observe_adds, observe]
    · have hlen : ∀ l : List CheckStatus, (arrive sched l).length = l.length :=
        fun l => (arrive_perm sched l).length_eq
      simp only [readinessAt, collect_take, List.length_map, length_adds, hlen,
        List.length_append, List.length_take, List.length_nil, Nat.zero_add, Bool.false_or, decide_eq_true_eq, true_and]
      refine ⟨by omega, by omega, ?_⟩
      intro h1 h2
      refine ⟨by omega, by omega, by omega, ?_⟩
      rw [decide_eq_false_iff_not]
      omega

/-- C8: AddHealthChecker appends the given checkers, in order, after the existing
registry: earlier entries keep their positions, the length grows by the number
given, the other fields are unchanged; Check and CheckAll are AddHealthChecker on
the checker or checkers of the provider; a checker registered before a readiness request
is launched by it and its result is received. -/
theorem AddHealthChecker_appends (s : checkServer) (cs : List Checker) :
    (AddHealthChecker s cs).healthCheckers = s.healthCheckers ++ cs ∧
    (AddHealthChecker s cs).healthCheckers.length = s.healthCheckers.length + cs.length ∧
    (∀ i, i < s.healthCheckers.length →
      (AddHealthChecker s cs).healthCheckers[i]? = s.healthCheckers[i]?) ∧
    (∀ i, i < cs.length →
      (AddHealthChecker s cs).healthCheckers[s.healthCheckers.length + i]? = cs[i]?) ∧
    (AddHealthChecker s cs).server = s.server ∧
    (AddHealthChecker s cs).wg = s.wg ∧
    AddHealthChecker s [] = s ∧
    (∀ p : CheckProvider, Check s p = AddHealthChecker s [p.HealthCheck]) ∧
    (∀ p : MultiCheckProvider, CheckAll s p = AddHealthChecker s p.HealthChecks) ∧
    (∀ (w : ResponseWriter) (req : Request) (sched : List Nat),
      (readiness (AddHealthChecker s cs) w req sched).launched
        = (s.healthCheckers ++ cs).map (fun f => f req.ctx) ∧
      (readiness (AddHealthChecker s cs) w req sched).received.length
        = s.healthCheckers.length + cs.length ∧
      ∀ c ∈ cs, c req.ctx ∈ (readiness (AddHealthChecker s cs) w req sched).launched ∧
        c req.ctx ∈ (readiness (AddHealthChecker s cs) w req sched).received) := by
  refine ⟨rfl, by simp [AddHealthChecker], ?_, ?_, rfl, rfl, ?_, fun _ => rfl, fun _ => rfl, ?_⟩
  · intro i hi
    simp [AddHealthChecker, List.getElem?_append_left hi]
  · intro i _
    simp [AddHealthChecker, List.getElem?_append_right]
  · simp [AddHealthChecker]
  · intro w req sched
    rw [readiness_eq]
    have hperm := arrive_perm sched ((AddHealthChecker s cs).healthCheckers.map fun f => f req.ctx)
    refine ⟨rfl, ?_, ?_⟩
    · rw [hperm.length_eq]
      simp [AddHealthChecker]
    · intro c hc
      have hm : c req.ctx ∈ (AddHealthChecker s cs).healthCheckers.map fun f => f req.ctx :=
        List.mem_map.2 ⟨c, by simp [AddHealthChecker, hc], rfl⟩
      exact ⟨hm, hperm.mem_iff.2 hm⟩

/-- C9: liveness writes status 200 and the body "live" whatever the server state and
the request; it starts no checker and receives nothing. -/
theorem liveness_constant (s : checkServer) (req : Request) :
    (liveness s ResponseWriter.fresh req).w.status = some 200 ∧
    (liveness s ResponseWriter.fresh req).w.body = "live" ∧
    (liveness s ResponseWriter.fresh req).launched = [] ∧
    (liveness s ResponseWriter.fresh req).received = [] ∧
    (∀ (s' : checkServer) (req' : Request),
      liveness s' ResponseWriter.fresh req' = liveness s ResponseWriter.fresh req) := by
  refine ⟨rfl, ?_, rfl, rfl, fun _ _ => rfl⟩
  simp only [liveness]
  decide

/-- C10: permuting the collected results changes neither the verdict Status, nor
the status code, nor the key sets of Info and Details; it leaves Info and Details
unchanged when the healthy results have pairwise distinct Names, the Error
unchanged when at most one result is unhealthy, and the whole response unchanged
when both hold, so that the handler then writes the same response under every
arrival order. -/
theorem response_arrival_order (rs rs' : List CheckStatus) (hp : rs.Perm rs') :
    (reduce rs).Status = (reduce rs').Status ∧
    (respond ResponseWriter.fresh (reduce rs)).status
      = (respond ResponseWriter.fresh (reduce rs')).status ∧
    mapKeys (reduce rs).Info = mapKeys (reduce rs').Info ∧
    mapKeys (reduce rs).Details = mapKeys (reduce rs').Details ∧
    (((rs.filter fun r => r.Healthy).map fun r => r.Name).Nodup →
      (reduce rs).Info = (reduce rs').Info ∧ (reduce rs).Details = (reduce rs').Details) ∧
    ((rs.filter fun r => !r.Healthy).length ≤ 1 → (reduce rs).Error = (reduce rs').Error) ∧
    (((rs.filter fun r => r.Healthy).map fun r => r.Name).Nodup →
      (rs.filter fun r => !r.Healthy).length ≤ 1 →
      reduce rs = reduce rs' ∧
      respond ResponseWriter.fresh (reduce rs) = respond ResponseWriter.fresh (reduce rs')) ∧
    (∀ (s : checkServer) (req : Request) (sched sched' : List Nat),
      s.healthCheckers.map (fun f => f req.ctx) = rs →
      ((rs.filter fun r => r.Healthy).map fun r => r.Name).Nodup →
      (rs.filter fun r => !r.Healthy).length ≤ 1 →
      (readiness s ResponseWriter.fresh req sched).w
        = (readiness s ResponseWriter.fresh req sched').w) := by
  have hStatus : (reduce rs).Status = (reduce rs').Status := by
    rw [reduce_Status, reduce_Status]
    have : rs.all (fun r => r.Healthy) = rs'.all (fun r => r.Healthy) := by
      rw [Bool.eq_iff_iff, List.all_eq_true, List.all_eq_true]
      exact ⟨fun h r hr => h r (hp.mem_iff.2 hr), fun h r hr => h r (hp.mem_iff.1 hr)⟩
    rw [this]
  have hKeys : mapKeys (reduce rs).Info = mapKeys (reduce rs').Info := by
    refine eq_of_keysSorted (reduce_sorted rs).1 (reduce_sorted rs').1 ?_
    intro n
    rw [reduce_mem_keys, reduce_mem_keys]
    constructor
    · rintro ⟨r, hr, h⟩; exact ⟨r, hp.mem_iff.1 hr, h⟩
    · rintro ⟨r, hr, h⟩; exact ⟨r, hp.mem_iff.2 hr, h⟩
  have hMaps : ((rs.filter fun r => r.Healthy).map fun r => r.Name).Nodup →
      (reduce rs).Info = (reduce rs').Info ∧ (reduce rs).Details = (reduce rs').Details := by
    intro hn
    have hf : (rs.filter fun r => r.Healthy).Perm (rs'.filter fun r => r.Healthy) :=
      hp.filter _
    have hnil : ((rs.filter fun r => r.Healthy).filter fun r => !r.Healthy) = [] := by
      rw [List.filter_eq_nil_iff]
      intro r hr
      simp [(List.mem_filter.1 hr).2]
    have heq := reduce_perm_of_distinct hf (by simpa [List.filter_filter] using hn)
      (by rw [hnil]; simp)
    have h1 := reduce_filter_healthy rs
    have h2 := reduce_filter_healthy rs'
    rw [heq] at h1
    exact ⟨h1.1.symm.trans h2.1, h1.2.symm.trans h2.2⟩
  have hErr : (rs.filter fun r => !r.Healthy).length ≤ 1 →
      (reduce rs).Error = (reduce rs').Error := by
    intro hu
    rw [reduce_Error, reduce_Error, perm_eq_of_length_le_one (hp.filter _) hu]
  refine ⟨hStatus, ?_, hKeys, ?_, hMaps, hErr, ?_, ?_⟩
  · rw [respond_fresh, respond_fresh, hStatus]
  · rw [← reduce_keys_eq, ← reduce_keys_eq, hKeys]
  · intro hn hu
    have h := reduce_perm_of_distinct hp hn hu
    exact ⟨h, by rw [h]⟩
  · intro s req sched sched' hs hn hu
    rw [readiness_eq, readiness_eq, hs]
    have hperm : (arrive sched rs).Perm (arrive sched' rs) :=
      (arrive_perm sched rs).trans (arrive_perm sched' rs).symm
    have hn' : (((arrive sched rs).filter fun r => r.Healthy).map fun r => r.Name).Nodup :=
      ((((arrive_perm sched rs).filter _).map _).nodup_iff).2 hn
    have hu' : ((arrive sched rs).filter fun r => !r.Healthy).length ≤ 1 := by
      rw [((arrive_perm sched rs).filter _).length_eq]; exact hu
    show respond _ _ = respond _ _
    rw [reduce_perm_of_distinct hperm hn' hu']

/-- C10 at a rotation of three results with distinct names, one unhealthy. -/
theorem response_arrival_order_witness :
    (reduce [⟨"a", true, "1", "x", ""⟩, ⟨"b", false, "", "", "boom"⟩, ⟨"c", true, "2", "y", ""⟩])
      = reduce [⟨"b", false, "", "", "boom"⟩, ⟨"c", true, "2", "y", ""⟩, ⟨"a", true, "1", "x", ""⟩] :=
  ((response_arrival_order
      [⟨"a", true, "1", "x", ""⟩, ⟨"b", false, "", "", "boom"⟩, ⟨"c", true, "2", "y", ""⟩]
      [⟨"b", false, "", "", "boom"⟩, ⟨"c", true, "2", "y", ""⟩, ⟨"a", true, "1", "x", ""⟩]
      (by decide)).2.2.2.2.2.2.1
    (by decide) (by decide)).1

end Health
